import Mathlib

/-!
Verification of the company-enrichment agent (matcapl/industrials).

This file shallowly embeds the Python sources
`src/company_enrichment_agent.py` and
`src/original_company_enrichment_agent_v3.py` in Lean 4 and proves the
frozen claims about them.  Pure string processing (name cleaning, URL
validation, domain-candidate generation, numeric extraction filtering,
record merging, batch checkpointing) is translated directly from the
source; network I/O, HTML/PDF parsing and the regex `findall` capability
are abstracted as oracles (a `Net` structure), mirroring the spec's
component boundary (§1, §6): the control flow around the oracles is
translated faithfully.
-/

/-! ### Character and list-of-char utilities (Python string semantics) -/

/-- Python `\s` / `str.split()` / `str.strip()` whitespace class. -/
def isPyWs (c : Char) : Bool :=
  c = ' ' || c = '\t' || c = '\n' || c = '\r' || c = '\x0b' || c = '\x0c'

/-- Python regex `\w` word-character class (ASCII fragment). -/
def isWordChar (c : Char) : Bool :=
  c.isAlpha || c.isDigit || c = '_'

/-- Model of `str.lower` over a character list (ASCII fragment). -/
def toLowerL (l : List Char) : List Char := l.map Char.toLower

/-- Model of `str.upper` over a character list (ASCII fragment). -/
def toUpperL (l : List Char) : List Char := l.map Char.toUpper

/-- Does `l` start with `pat`?  (Python `str.startswith` on char lists.) -/
def startsWithL : List Char → List Char → Bool
  | _, [] => true
  | [], _ :: _ => false
  | c :: cs, p :: ps => c = p && startsWithL cs ps

/-- Does `l` end with `pat`?  (Python `str.endswith` on char lists.) -/
def endsWithL (l pat : List Char) : Bool :=
  startsWithL l.reverse pat.reverse

/-- Python `pat in s` substring test on char lists. -/
def containsL : List Char → List Char → Bool
  | [], pat => pat.isEmpty
  | c :: cs, pat => startsWithL (c :: cs) pat || containsL cs pat

/-- Python `str.startswith` on `String`. -/
def pyStartsWith (s pat : String) : Bool := startsWithL s.toList pat.toList

/-- Python `str.strip()` (strip Python whitespace from both ends). -/
def stripWsL (l : List Char) : List Char :=
  ((l.dropWhile isPyWs).reverse.dropWhile isPyWs).reverse

/-- Python `str.strip()` on `String`. -/
def stripS (s : String) : String := String.mk (stripWsL s.toList)

/-- Python `str.replace(pat, repl)` for a non-empty `pat`: replace
every (leftmost, non-overlapping) occurrence of `pat` by `repl`.
Fuelled structural recursion; the fuel `l.length` always suffices since
every step consumes at least one character. -/
def replaceAllAux (pat repl : List Char) : Nat → List Char → List Char
  | 0, l => l
  | _ + 1, [] => []
  | fuel + 1, c :: cs =>
    if pat ≠ [] && startsWithL (c :: cs) pat then
      repl ++ replaceAllAux pat repl fuel ((c :: cs).drop pat.length)
    else
      c :: replaceAllAux pat repl fuel cs

/-- Python `str.replace(pat, repl)` on char lists. -/
def replaceAllL (pat repl l : List Char) : List Char :=
  replaceAllAux pat repl l.length l

/-- Python `str.split()` with no argument: split on whitespace runs,
dropping empty pieces (fuelled; the fuel `l.length + 1` always
suffices since every step consumes at least one character). -/
def splitWsAux : Nat → List Char → List (List Char)
  | 0, _ => []
  | fuel + 1, l =>
    match l.dropWhile isPyWs with
    | [] => []
    | c :: cs =>
      ((c :: cs).takeWhile (fun d => !isPyWs d))
        :: splitWsAux fuel ((c :: cs).dropWhile (fun d => !isPyWs d))

/-- Python `str.split()` on char lists. -/
def splitWs (l : List Char) : List (List Char) := splitWsAux (l.length + 1) l

/-- Model of `" ".join` for strings. -/
def joinSpace : List String → String
  | [] => ""
  | [s] => s
  | s :: rest => s ++ " " ++ joinSpace rest

/-! ### The legal-suffix regex

All four source variants clean company names with
`re.sub(r'\b(LIMITED|LTD|CO\.?,?\s*LTD\.?)\b', '', name, flags=re.IGNORECASE)`.
Below is a direct executable model of that substitution: a scan that, at
each position preceded by a word boundary, tries the three alternatives
in order (with the regex's greedy/backtracking semantics for the
optional trailing dot) and removes the matched text. -/

/-- Case-insensitive literal match: `pat` is given in lowercase;
returns the rest of the input after the literal. -/
def matchCI : List Char → List Char → Option (List Char)
  | [], l => some l
  | _ :: _, [] => none
  | p :: ps, c :: cs => if c.toLower = p then matchCI ps cs else none

/-- Word boundary after a match that ends in a word character:
holds at end of input or before a non-word character. -/
def endBoundaryAfterWord : List Char → Bool
  | [] => true
  | c :: _ => !isWordChar c

/-- The `CO\.?,?\s*LTD\.?` alternative (with the trailing `\b` of the
whole pattern).  Returns the rest after the match together with the
word-character status of the last matched character. -/
def tryMatchCO (l : List Char) : Option (List Char × Bool) :=
  match matchCI "co".toList l with
  | none => none
  | some r1 =>
    let r2 := match r1 with | '.' :: t => t | _ => r1
    let r3 := match r2 with | ',' :: t => t | _ => r2
    let r4 := r3.dropWhile isPyWs
    match matchCI "ltd".toList r4 with
    | none => none
    | some r5 =>
      match r5 with
      | '.' :: t =>
        match t with
        | d :: _ =>
          if isWordChar d then some (t, false) else some (r5, true)
        | [] => some (r5, true)
      | _ => if endBoundaryAfterWord r5 then some (r5, true) else none

/-- One alternative of the group with the trailing `\b`:
`LIMITED` or `LTD` (both end in a word character). -/
def tryMatchWordAlt (pat : List Char) (l : List Char) : Option (List Char × Bool) :=
  match matchCI pat l with
  | some r => if endBoundaryAfterWord r then some (r, true) else none
  | none => none

/-- Try the whole alternation `LIMITED|LTD|CO\.?,?\s*LTD\.?` at the
current position (the leading `\b` is checked by the caller). -/
def tryMatchLegal (l : List Char) : Option (List Char × Bool) :=
  match tryMatchWordAlt "limited".toList l with
  | some x => some x
  | none =>
    match tryMatchWordAlt "ltd".toList l with
    | some x => some x
    | none => tryMatchCO l

/-- The `re.sub` scan: `pw` is whether the previous character is a word
character (so the leading `\b` holds exactly when `pw = false`).
Fuelled by the input length; each step consumes at least one
character. -/
def stripLegalAux : Nat → Bool → List Char → List Char
  | 0, _, l => l
  | _ + 1, _, [] => []
  | fuel + 1, pw, c :: cs =>
    if pw then c :: stripLegalAux fuel (isWordChar c) cs
    else
      match tryMatchLegal (c :: cs) with
      | some (rest, lw) => stripLegalAux fuel lw rest
      | none => c :: stripLegalAux fuel (isWordChar c) cs

/-- Model of `re.sub(r'\b(LIMITED|LTD|CO\.?,?\s*LTD\.?)\b', '', name, re.IGNORECASE)`. -/
def stripLegal (l : List Char) : List Char := stripLegalAux l.length false l

/-! ### Company-name tokenization

`QualityValidator.validate_company_website` (lines 42–44) replaces the
legal suffix, maps every non-word non-space character to a *space*,
strips, lowercases and splits, keeping tokens of length > 2.
`_construct_and_test_domains` (lines 125–127) is identical except that
non-word non-space characters are *removed* instead. -/

/-- Model of `re.sub(r'[^\w\s]', ' ', l)`. -/
def scrubToSpace (l : List Char) : List Char :=
  l.map (fun c => if isWordChar c || isPyWs c then c else ' ')

/-- Model of `re.sub(r'[^\w\s]', '', l)`. -/
def scrubRemove (l : List Char) : List Char :=
  l.filter (fun c => isWordChar c || isPyWs c)

/-- Cleaned name tokens used by the URL validator
(`company_enrichment_agent.py` lines 42–44). -/
def companyWordsValidator (name : String) : List (List Char) :=
  (splitWs (toLowerL (stripWsL (scrubToSpace (stripLegal name.toList))))).filter
    (fun w => w.length > 2)

/-- Cleaned name tokens used by the domain-candidate generator
(`company_enrichment_agent.py` lines 125–127). -/
def companyWordsDomain (name : String) : List (List Char) :=
  (splitWs (toLowerL (stripWsL (scrubRemove (stripLegal name.toList))))).filter
    (fun w => w.length > 2)

/-! ### QualityValidator.validate_company_website (lines 18–59) -/

/-- The dict returned by the validators: `valid`, `reason` and
`confidence` (`reason`/`confidence` default to `""`/`0` when the
source dict omits them). -/
structure Verdict where
  valid : Bool
  reason : String
  confidence : Nat
deriving DecidableEq

/-- Denylist from `validate_company_website` (lines 29–36). -/
def blacklisted_domains : List String :=
  ["microsoft.com", "google.com", "facebook.com", "linkedin.com", "twitter.com",
   "youtube.com", "wikipedia.org", "gov.uk", "bbc.com", "booking.com",
   "cnbc.com", "scribd.com", "forums.", "forum.", "support.", "answers.",
   "fandom.com", "npmjs.com", "kortoverkobenhavn.com", "svenskafans.com",
   "writedu.com", "bmj.com", "epictravelplans.com", "fuji-x-forum.com",
   "leagueoflegends.", "wordreference.com", "x-plane.org"]

/-- Model of `urlparse(url).netloc`: the text between `"://"` and the next
`/`, `?` or `#` (empty when the URL has no `"://"`). -/
def netlocAfterScheme : List Char → Option (List Char)
  | [] => none
  | ':' :: '/' :: '/' :: rest => some rest
  | _ :: rest => netlocAfterScheme rest

/-- Host part of a URL, as `urlparse(url).netloc`. -/
def netlocOf (url : String) : List Char :=
  match netlocAfterScheme url.toList with
  | none => []
  | some r => r.takeWhile (fun c => c ≠ '/' && c ≠ '?' && c ≠ '#')

/-- Number of cleaned name tokens occurring as substrings of the
(lowercased) host (line 46). -/
def domainMatches (domain : List Char) (name : String) : Nat :=
  ((companyWordsValidator name).filter (fun w => containsL domain w)).length

/-- Model of `QualityValidator.validate_company_website` (lines 18–59).  The
`sic_codes` argument is unused by the source body and kept for
signature fidelity. -/
def validate_company_website (url company_name : String) (_sic_codes : List String) : Verdict :=
  if url = "" || !pyStartsWith url "http" then
    ⟨false, "Invalid URL format", 0⟩
  else
    let domain := toLowerL (netlocOf url)
    if blacklisted_domains.any (fun b => containsL domain b.toList) then
      ⟨false, "Blacklisted domain: " ++ String.mk domain, 0⟩
    else
      let company_words := companyWordsValidator company_name
      let nMatches := (company_words.filter (fun w => containsL domain w)).length
      if !(endsWithL domain ".co.uk".toList || endsWithL domain ".com".toList
            || endsWithL domain ".org".toList) then
        ⟨false, "Non-business domain extension", 0⟩
      else if nMatches = 0 && !company_words.isEmpty then
        ⟨false, "No company name match in domain", 0⟩
      else
        ⟨true, "", min 100 (nMatches * 30 + 40)⟩

/-! ### QualityValidator.validate_company_description (lines 61–77) -/

/-- Model of `len(set(desc_core.split()) & set(sic_text.split()))` where
`desc_core` is the description with every occurrence of
`"Company engaged in"` removed, stripped and lowercased, and
`sic_text` is the space-joined lowercased SIC-code texts
(lines 69–73). -/
def sicSimilarity (description : String) (sic_codes : List String) : Nat :=
  let sic_text := toLowerL (joinSpace sic_codes).toList
  let desc_core :=
    toLowerL (stripWsL (replaceAllL "Company engaged in".toList [] description.toList))
  (((splitWs desc_core).dedup).filter (fun w => (splitWs sic_text).contains w)).length

/-- Model of `QualityValidator.validate_company_description` (lines 61–77).
The `company_name` argument is unused by the source body and kept for
signature fidelity. -/
def validate_company_description (description _company_name : String)
    (sic_codes : List String) : Verdict :=
  if description = "" then
    ⟨false, "Empty description", 0⟩
  else if pyStartsWith description "Company engaged in" then
    if sicSimilarity description sic_codes > 3 then
      ⟨false, "Too similar to SIC codes", 0⟩
    else
      ⟨true, "", 70⟩
  else
    ⟨true, "", 70⟩

/-! ### Domain-candidate generation (lines 122–147) -/

/-- The candidate list built by `_construct_and_test_domains`
(lines 132–144): with ≥ 2 tokens, four two-token entries (the fourth is
the first-three-token concatenation when a third token exists and
*repeats* the two-token `.co.uk` concatenation otherwise), always
followed by the single-token entries. -/
def domain_candidates (name : String) : List String :=
  match companyWordsDomain name with
  | [] => []
  | [w0] => [w0.asString ++ ".co.uk", w0.asString ++ ".com"]
  | w0 :: w1 :: rest =>
    let two := w0.asString ++ w1.asString
    [two ++ ".co.uk",
     w0.asString ++ "-" ++ w1.asString ++ ".co.uk",
     two ++ ".com",
     (match rest with
      | [] => two ++ ".co.uk"
      | w2 :: _ => two ++ w2.asString ++ ".co.uk")]
    ++ [w0.asString ++ ".co.uk", w0.asString ++ ".com"]

/-- The candidates actually probed: `candidates[:4]` (line 147). -/
def domains_tried (name : String) : List String :=
  (domain_candidates name).take 4

/-- Modelled from the spec's words (claim C5 / spec §4.2), for
comparison with `domain_candidates`: the three-token entry is generated
*only if* at least three tokens exist (no repeated entry otherwise). -/
def spec_domain_candidates (name : String) : List String :=
  match companyWordsDomain name with
  | [] => []
  | [w0] => [w0.asString ++ ".co.uk", w0.asString ++ ".com"]
  | w0 :: w1 :: rest =>
    let two := w0.asString ++ w1.asString
    [two ++ ".co.uk",
     w0.asString ++ "-" ++ w1.asString ++ ".co.uk",
     two ++ ".com"]
    ++ (match rest with
        | [] => []
        | w2 :: _ => [two ++ w2.asString ++ ".co.uk"])
    ++ [w0.asString ++ ".co.uk", w0.asString ++ ".com"]

/-- The probed candidates according to the spec's generation order. -/
def spec_domains_tried (name : String) : List String :=
  (spec_domain_candidates name).take 4

/-- Amended description of the probed candidate list (the statement the
code actually satisfies), as a function of the cleaned token list. -/
def amended_domains_tried : List (List Char) → List String
  | [] => []
  | [w0] => [w0.asString ++ ".co.uk", w0.asString ++ ".com"]
  | [w0, w1] =>
    let two := w0.asString ++ w1.asString
    [two ++ ".co.uk", w0.asString ++ "-" ++ w1.asString ++ ".co.uk",
     two ++ ".com", two ++ ".co.uk"]
  | w0 :: w1 :: w2 :: _ =>
    let two := w0.asString ++ w1.asString
    [two ++ ".co.uk", w0.asString ++ "-" ++ w1.asString ++ ".co.uk",
     two ++ ".com", two ++ w2.asString ++ ".co.uk"]

/-! ### Employee-count numeric filtering

`_extract_employees_from_pdf` (lines 399–409) and the v3
`get_employee_count_from_accounts` (lines 158–165) run `re.findall` for
each pattern in order and return the first parsed match inside a
plausibility bound.  The regex capability is abstracted: the functions
below take the per-pattern `findall` result lists and translate the
double loop, `int()` parsing (`ValueError` → skip) and bound check
exactly. -/

/-- Model of `int(match)` for a regex `(\d+)` capture: the decimal value of a
non-empty all-digit string, `none` (the `ValueError` branch)
otherwise. -/
def pyInt? (s : String) : Option Nat :=
  if s.toList ≠ [] && s.toList.all Char.isDigit then
    some (s.toList.foldl (fun n c => n * 10 + (c.toNat - 48)) 0)
  else none

/-- Inner loop over one pattern's matches: first parsed value `n` with
`lo ≤ n ≤ hi` (returned as `str(n)`), skipping unparsable or
out-of-bound matches. -/
def scanMatches (lo hi : Nat) : List String → Option String
  | [] => none
  | m :: ms =>
    match pyInt? m with
    | some n => if lo ≤ n && n ≤ hi then some (toString n) else scanMatches lo hi ms
    | none => scanMatches lo hi ms

/-- Outer loop over the patterns' match lists; `""` when every match of
every pattern is discarded. -/
def firstInRange (lo hi : Nat) : List (List String) → String
  | [] => ""
  | ms :: rest =>
    match scanMatches lo hi ms with
    | some s => s
    | none => firstInRange lo hi rest

/-- Numeric filtering of `CompanyEnrichmentAgent._extract_employees_from_pdf`
(`company_enrichment_agent.py` lines 399–409): bound `1 ≤ n ≤ 5000`. -/
def pdf_employee_extract (matchLists : List (List String)) : String :=
  firstInRange 1 5000 matchLists

/-- Numeric filtering of `CompanyEnrichmentAgent.get_employee_count_from_accounts`
(`original_company_enrichment_agent_v3.py` lines 158–165): bound
`1 ≤ n ≤ 10000`. -/
def v3_employee_extract (matchLists : List (List String)) : String :=
  firstInRange 1 10000 matchLists

/-! ### Records, enrichment results and the merge step

One row of the table (`EntityRecord`): base columns plus the six
enrichment columns added by `process_csv` (line 502), and the per-record
`info` dict built by `enrich_company` (lines 454–461). -/

structure Info where
  company_url : String
  description : String
  employees_2024 : String
  employees_2023 : String
  employees_2022 : String
  manufacturing_location : String
deriving DecidableEq

structure Row where
  name : String
  number : String
  sic : List String
  company_url : String
  description : String
  employees_2024 : String
  employees_2023 : String
  employees_2022 : String
  manufacturing_location : String
deriving DecidableEq

/-- The all-empty enrichment result (lines 454–461). -/
def emptyInfo : Info := ⟨"", "", "", "", "", ""⟩

/-- One field of the merge at lines 516–518 (identically lines 388–390
of v3): `if value and str(value).strip(): df.at[index, key] =
str(value).strip()` — for a string `value` the guard is equivalent to
`value.strip() != ""`. -/
def mergeField (old newv : String) : String :=
  if stripS newv ≠ "" then stripS newv else old

/-- The per-record merge loop of `process_csv` (lines 516–518) applied
to all six enrichment columns. -/
def mergeInfo (r : Row) (i : Info) : Row :=
  { r with
    company_url := mergeField r.company_url i.company_url,
    description := mergeField r.description i.description,
    employees_2024 := mergeField r.employees_2024 i.employees_2024,
    employees_2023 := mergeField r.employees_2023 i.employees_2023,
    employees_2022 := mergeField r.employees_2022 i.employees_2022,
    manufacturing_location := mergeField r.manufacturing_location i.manufacturing_location }

/-! ### The batch loop of `process_csv` (lines 510–531)

`enrich` abstracts `enrich_company` on one row; `none` models an
exception raised while enriching that record (caught at line 527: the
record is skipped, `processed` is *not* incremented, the loop
continues).  A checkpoint snapshot of the whole live table is taken
whenever `processed % k == 0` (lines 523–524; the source fixes
`k = 3`), and once more after the loop (line 531). -/

/-- Effect of one loop iteration on the record itself. -/
def stepRow (enrich : Row → Option Info) (r : Row) : Row :=
  match enrich r with
  | some info => mergeInfo r info
  | none => r

/-- The record loop: `done` are already-visited rows of the live table,
`rest` the rows still to visit, `processed` the success counter,
`saves` the checkpoint snapshots taken so far (in order). -/
def batchLoop (k : Nat) (enrich : Row → Option Info) :
    List Row → List Row → Nat → List (List Row) → List Row × List (List Row)
  | done, [], _, saves => (done, saves)
  | done, r :: rest, processed, saves =>
    match enrich r with
    | none => batchLoop k enrich (done ++ [r]) rest processed saves
    | some info =>
      let r2 := mergeInfo r info
      let p2 := processed + 1
      let saves2 := if p2 % k = 0 then saves ++ [(done ++ [r2]) ++ rest] else saves
      batchLoop k enrich (done ++ [r2]) rest p2 saves2

/-- The whole batch: run the loop from an untouched table and append the
final save (line 531).  Returns (final table, persisted snapshots in
order). -/
def process_batch (k : Nat) (enrich : Row → Option Info) (tbl : List Row) :
    List Row × List (List Row) :=
  let out := batchLoop k enrich [] tbl 0 []
  (out.1, out.2 ++ [out.1])

/-- Model of `process_csv` at the API boundary (lines 495–543): the outer
`try`/`except` turns an unreadable input table (`input = none`) into the
`None` return value; otherwise the batch runs to completion with the
source's checkpoint interval 3 and the enriched table is returned. -/
def process_csv (enrich : Row → Option Info) (input : Option (List Row)) :
    Option (List Row) :=
  match input with
  | none => none
  | some tbl => some (process_batch 3 enrich tbl).1

/-- Checkpoint-snapshot skeleton of the loop under the assumption that
every record enriches without an exception: the snapshots taken while
scanning `rest` from success count `p` with visited prefix `done`. -/
def chkSnaps (k : Nat) (enrich : Row → Option Info) (done : List Row) (p : Nat) :
    List Row → List (List Row)
  | [] => []
  | r :: rest =>
    let r2 := stepRow enrich r
    (if (p + 1) % k = 0 then [(done ++ [r2]) ++ rest] else [])
      ++ chkSnaps k enrich (done ++ [r2]) (p + 1) rest

/-! ### Network functions as event traces

Every outbound call in the source is `self.random_delay()` (line 91:
`time.sleep(random.uniform(*self.delay_range))`, a uniform draw from the
configured interval) followed by a `session.head`/`session.get`.  We
embed each network function as a value paired with its trace of
`delay` / `req` events; responses and HTML/PDF parsing results come
from a `Net` oracle (the Fetcher/parser capability boundary of spec
§4.1/§6), while the control flow around them is translated from the
source.  A transport exception is modelled by the failing status the
handler maps it to (the delay has already been emitted either way). -/

inductive Ev
  | delay
  | req (url : String)
deriving DecidableEq

structure Net where
  /-- HEAD probe (line 152) returned `200 <= status < 400`. -/
  headOk : String → Bool
  /-- GET status for a URL. -/
  getStatus : String → Nat
  /-- Model of `soup.get_text()` of the fetched page (line 174). -/
  pageText : String → String
  /-- Model of `re.findall(url_pattern, content)` on the filing-history page
  (lines 205–206): the captured domains, in order. -/
  filingSiteLinks : String → List String
  /-- decoded `uddg` result URLs of the search page (lines 232–239),
  in order. -/
  searchLinks : String → List String
  /-- Model of `(year, pdf_link, desc_text)` triples parsed from the
  filing-history page (lines 321–343), in order. -/
  accountLinks : String → List (String × String × String)
  /-- per-pattern `re.findall` results over the fetched document's
  extracted text (lines 386–400). -/
  pdfMatches : String → List (List String)
  /-- description produced by the parsing cascade of
  `extract_company_description` (lines 262–295). -/
  descResult : String → String
  /-- registered address parsed by `get_companies_house_address`
  (lines 426–438). -/
  addressResult : String → String

/-- Base URL `https://find-and-update.company-information.service.gov.uk`. -/
def chBase : String := "https://find-and-update.company-information.service.gov.uk"

/-- Keyword vocabulary of `_verify_business_website` (line 177). -/
def business_keywords : List String :=
  ["company", "business", "services", "products", "about us", "contact", "manufacturing"]

/-- Model of `CompanyEnrichmentAgent._verify_business_website` (lines 163–188):
one delayed GET; on failure (status ≥ 400 or exception) `False`, else
business-keyword count ≥ 2 and name-token (length > 3) count ≥ 1 over
the lowercased page text. -/
def verify_business_website (net : Net) (url company_name : String) : Bool × List Ev :=
  let tr : List Ev := [Ev.delay, Ev.req url]
  if 400 ≤ net.getStatus url then (false, tr)
  else
    let text := toLowerL (net.pageText url).toList
    let business_score :=
      (business_keywords.filter (fun kw => containsL text kw.toList)).length
    let company_words :=
      splitWs (replaceAllL "ltd".toList []
        (replaceAllL "limited".toList [] (toLowerL company_name.toList)))
    let name_score :=
      (company_words.filter (fun w => w.length > 3 && containsL text w)).length
    (decide (business_score ≥ 2) && decide (name_score ≥ 1), tr)

/-- The probe loop of `_construct_and_test_domains` (lines 147–159):
delayed HEAD per candidate; on a 2xx/3xx answer run the content check
and stop at the first confirmed URL. -/
def testDomainList (net : Net) (company_name : String) : List String → String × List Ev
  | [] => ("", [])
  | d :: ds =>
    let test_url := "https://www." ++ d
    let pre : List Ev := [Ev.delay, Ev.req test_url]
    if net.headOk test_url then
      let v := verify_business_website net test_url company_name
      if v.1 then (test_url, pre ++ v.2)
      else
        let rest := testDomainList net company_name ds
        (rest.1, pre ++ v.2 ++ rest.2)
    else
      let rest := testDomainList net company_name ds
      (rest.1, pre ++ rest.2)

/-- Model of `CompanyEnrichmentAgent._construct_and_test_domains` (lines 122–161). -/
def construct_and_test_domains (net : Net) (company_name : String) : String × List Ev :=
  testDomainList net company_name (domains_tried company_name)

/-- The match loop of `_extract_website_from_companies_house`
(lines 208–211); note the source passes the *company number* as the
name argument of the content check. -/
def scanFilingMatches (net : Net) (company_number : String) :
    List String → String × List Ev
  | [] => ("", [])
  | m :: ms =>
    let potential_url := "https://www." ++ m
    let v := verify_business_website net potential_url company_number
    if v.1 then (potential_url, v.2)
    else
      let rest := scanFilingMatches net company_number ms
      (rest.1, v.2 ++ rest.2)

/-- Model of `CompanyEnrichmentAgent._extract_website_from_companies_house`
(lines 190–216). -/
def extract_website_from_companies_house (net : Net) (company_number : String) :
    String × List Ev :=
  let filing_url := chBase ++ "/company/" ++ company_number ++ "/filing-history"
  let pre : List Ev := [Ev.delay, Ev.req filing_url]
  if net.getStatus filing_url ≠ 200 then ("", pre)
  else
    let s := scanFilingMatches net company_number (net.filingSiteLinks filing_url)
    (s.1, pre ++ s.2)

/-- Model of `query.replace(' ', '+')` (line 223). -/
def spacesToPlus (s : String) : String :=
  String.mk (s.toList.map (fun c => if c = ' ' then '+' else c))

/-- The result-link loop of `_search_with_quality_filter`
(lines 232–244): URL-level validation with confidence > 50, then the
content check; first confirmed URL wins. -/
def scanSearchLinks (net : Net) (company_name : String) :
    List String → String × List Ev
  | [] => ("", [])
  | u :: us =>
    let v := validate_company_website u company_name []
    if v.valid && decide (v.confidence > 50) then
      let w := verify_business_website net u company_name
      if w.1 then (u, w.2)
      else
        let rest := scanSearchLinks net company_name us
        (rest.1, w.2 ++ rest.2)
    else
      let rest := scanSearchLinks net company_name us
      (rest.1, rest.2)

/-- Model of `CompanyEnrichmentAgent._search_with_quality_filter` (lines 218–249). -/
def search_with_quality_filter (net : Net) (company_name : String) : String × List Ev :=
  let query := company_name ++ " UK company official website -linkedin -facebook -wikipedia"
  let search_url := "https://html.duckduckgo.com/html/?q=" ++ spacesToPlus query
  let pre : List Ev := [Ev.delay, Ev.req search_url]
  if net.getStatus search_url = 200 then
    let s := scanSearchLinks net company_name (net.searchLinks search_url)
    (s.1, pre ++ s.2)
  else ("", pre)

/-- Model of `CompanyEnrichmentAgent.find_official_website` (lines 94–120): the
three-strategy cascade.  Method 1 (domain construction), validated at
line 100; method 2 (registry filing mining) only when a company number
is present, validated at line 109; method 3 (filtered text search)
returned directly when non-empty; `""` when all exhaust. -/
def find_official_website (net : Net) (company_name company_number : String) :
    String × List Ev :=
  let m1 := construct_and_test_domains net company_name
  if m1.1 ≠ "" && (validate_company_website m1.1 company_name []).valid then m1
  else if company_number ≠ "" then
    let m2 := extract_website_from_companies_house net company_number
    if m2.1 ≠ "" && (validate_company_website m2.1 company_name []).valid then
      (m2.1, m1.2 ++ m2.2)
    else
      let m3 := search_with_quality_filter net company_name
      (m3.1, m1.2 ++ m2.2 ++ m3.2)
  else
    let m3 := search_with_quality_filter net company_name
    (m3.1, m1.2 ++ m3.2)

/-- Model of `CompanyEnrichmentAgent.extract_company_description` (lines 251–300):
one delayed GET, empty on failure, else the parsing cascade's result. -/
def extract_company_description (net : Net) (url _company_name : String) :
    String × List Ev :=
  if url = "" then ("", [])
  else
    let pre : List Ev := [Ev.delay, Ev.req url]
    if 400 ≤ net.getStatus url then ("", pre)
    else (net.descResult url, pre)

/-- Model of `CompanyEnrichmentAgent._extract_employees_from_pdf`
(lines 358–414): resolve a relative link against the registry base, one
delayed GET, then the bounded numeric extraction over the document's
per-pattern matches. -/
def extract_employees_from_pdf (net : Net) (pdf_link : String) : String × List Ev :=
  let pdf_url := if !pyStartsWith pdf_link "http" then chBase ++ pdf_link else pdf_link
  let pre : List Ev := [Ev.delay, Ev.req pdf_url]
  if net.getStatus pdf_url ≠ 200 then ("", pre)
  else (pdf_employee_extract (net.pdfMatches pdf_url), pre)

/-- Per-year employee fields of `get_employee_data_from_accounts`
(lines 304–308). -/
structure EmpData where
  e2024 : String
  e2023 : String
  e2022 : String
deriving DecidableEq

def getEmp (d : EmpData) (year : String) : String :=
  if year = "2024" then d.e2024 else if year = "2023" then d.e2023 else d.e2022

def setEmp (d : EmpData) (year v : String) : EmpData :=
  if year = "2024" then { d with e2024 := v }
  else if year = "2023" then { d with e2023 := v }
  else { d with e2022 := v }

/-- The per-filing loop of `get_employee_data_from_accounts`
(lines 346–351): fetch a document only for a recent year whose field is
still empty. -/
def accountsLoop (net : Net) : List (String × String × String) → EmpData → EmpData × List Ev
  | [], d => (d, [])
  | (year, link, _) :: rest, d =>
    if (year = "2024" || year = "2023" || year = "2022") && getEmp d year = "" then
      let e := extract_employees_from_pdf net link
      let d2 := if e.1 ≠ "" then setEmp d year e.1 else d
      let r := accountsLoop net rest d2
      (r.1, e.2 ++ r.2)
    else
      let r := accountsLoop net rest d
      (r.1, r.2)

/-- Model of `CompanyEnrichmentAgent.get_employee_data_from_accounts`
(lines 302–356): delayed GET of the filing history, then at most six
filings inspected. -/
def get_employee_data_from_accounts (net : Net) (company_number : String) :
    EmpData × List Ev :=
  let filing_url := chBase ++ "/company/" ++ company_number ++ "/filing-history"
  let pre : List Ev := [Ev.delay, Ev.req filing_url]
  if net.getStatus filing_url ≠ 200 then (⟨"", "", ""⟩, pre)
  else
    let r := accountsLoop net ((net.accountLinks filing_url).take 6) ⟨"", "", ""⟩
    (r.1, pre ++ r.2)

/-- Model of `CompanyEnrichmentAgent.get_companies_house_address` (lines 416–442). -/
def get_companies_house_address (net : Net) (company_number : String) :
    String × List Ev :=
  let url := chBase ++ "/company/" ++ company_number
  let pre : List Ev := [Ev.delay, Ev.req url]
  if net.getStatus url ≠ 200 then ("", pre)
  else (net.addressResult url, pre)

/-- Lines 471–481 of `enrich_company`: only when a website was
resolved, extract a description from it and keep it only when the
redundancy validator accepts it. -/
def gated_description (net : Net) (website nm : String) (sic : List String) :
    String × List Ev :=
  if website ≠ "" then
    let d := extract_company_description net website nm
    if d.1 ≠ "" then
      if (validate_company_description d.1 nm sic).valid then d else ("", d.2)
    else ("", d.2)
  else ("", [])

/-- Foreign-jurisdiction name starts skipped at line 464. -/
def foreign_name_starts : List String :=
  ["ZHEJIANG", "ZHENGZHOU", "ZHENPING", "ZHONGSHAN"]

/-- Lines 470–493 of `enrich_company` (the non-skipped path): website
resolution, gated description, then — only with a company number —
employee data and registered address. -/
def enrich_rest (net : Net) (company_name company_number : String)
    (sic : List String) : Info × List Ev :=
  let w := find_official_website net company_name company_number
  let desc := gated_description net w.1 company_name sic
  let info1 := { emptyInfo with company_url := w.1, description := desc.1 }
  if company_number ≠ "" then
    let ed := get_employee_data_from_accounts net company_number
    let ad := get_companies_house_address net company_number
    ({ info1 with
        employees_2024 := ed.1.e2024,
        employees_2023 := ed.1.e2023,
        employees_2022 := ed.1.e2022,
        manufacturing_location :=
          if ad.1 ≠ "" then ad.1 else info1.manufacturing_location },
     w.2 ++ desc.2 ++ ed.2 ++ ad.2)
  else (info1, w.2 ++ desc.2)

/-- Model of `CompanyEnrichmentAgent.enrich_company` (lines 444–493): the
per-record orchestration with its full outbound-request trace. -/
def enrich_company (net : Net) (row : Row) : Info × List Ev :=
  let company_name := stripS row.name
  let n0 := stripS row.number
  let company_number := if n0 = "nan" then "" else n0
  if foreign_name_starts.any
      (fun p => startsWithL (toUpperL company_name.toList) p.toList) then
    if company_number ≠ "" then
      let a := get_companies_house_address net company_number
      ({ emptyInfo with manufacturing_location := a.1 }, a.2)
    else (emptyInfo, [])
  else
    enrich_rest net company_name company_number row.sic

/-! ### The delay-before-every-request trace property -/

/-- Predicate `wdFrom prevDelay t`: every request event in `t` is immediately
preceded by a delay event (`prevDelay` says whether the event just
before `t` was a delay). -/
def wdFrom : Bool → List Ev → Bool
  | _, [] => true
  | _, Ev.delay :: rest => wdFrom true rest
  | prevDelay, Ev.req _ :: rest => prevDelay && wdFrom false rest

/-- A trace is well delayed when every request is immediately preceded
by a (randomized) delay. -/
def wellDelayed (t : List Ev) : Bool := wdFrom false t

/-! ### Concrete oracles and records used as witnesses -/

/-- An environment where every HEAD probe succeeds and every page shows
business signals: the first domain guess is confirmed. -/
def netHit : Net where
  headOk := fun _ => true
  getStatus := fun _ => 200
  pageText := fun _ => "company business manufacturing"
  filingSiteLinks := fun _ => []
  searchLinks := fun _ => []
  accountLinks := fun _ => []
  pdfMatches := fun _ => []
  descResult := fun _ => ""
  addressResult := fun _ => ""

/-- An environment where every probe fails: all strategies exhaust. -/
def netMiss : Net where
  headOk := fun _ => false
  getStatus := fun _ => 404
  pageText := fun _ => ""
  filingSiteLinks := fun _ => []
  searchLinks := fun _ => []
  accountLinks := fun _ => []
  pdfMatches := fun _ => []
  descResult := fun _ => ""
  addressResult := fun _ => ""

/-- A record with no enrichment yet. -/
def rowBlank (nm : String) : Row := ⟨nm, "", [], "", "", "", "", "", ""⟩

/-- An already-fully-enriched record. -/
def rowFull : Row :=
  ⟨"Acme Manufacturing Ltd", "01234567", [],
   "https://www.old-site.co.uk", "Old description", "10", "11", "12", "Old Address"⟩

/-- A freshly found enrichment result, different from `rowFull`'s
populated values. -/
def infoNew : Info :=
  ⟨"https://www.new-site.co.uk", "New description", "20", "21", "22", "New Address"⟩

/-! ## Helper lemmas -/

theorem startsWithL_append_left (p q : List Char) :
    ∀ l, startsWithL l (p ++ q) = true → startsWithL l p = true := by
  induction p with
  | nil => intro l _; cases l <;> rfl
  | cons c cs ih =>
    intro l h
    cases l with
    | nil => simp [startsWithL] at h
    | cons d ds =>
      simp only [List.cons_append, startsWithL, Bool.and_eq_true] at h ⊢
      exact ⟨h.1, ih ds h.2⟩

theorem mergeField_empty {v : String} (o : String) (h : stripS v = "") :
    mergeField o v = o := by
  simp [mergeField, h]

theorem mergeField_nonempty {v : String} (o : String) (h : stripS v ≠ "") :
    mergeField o v = stripS v := by
  simp [mergeField, h]

theorem mergeField_idem (o v : String) :
    mergeField (mergeField o v) v = mergeField o v := by
  by_cases h : stripS v = "" <;> simp [mergeField, h]

/-! ## C1 — fill-empty merge

The claim says a newly found value is written only when the existing
field is empty.  The merge at lines 516–518 (and 388–390 of v3) in fact
writes every non-empty new value, overwriting populated fields. -/

/-- C1, counterexample: the merge of `process_csv` overwrites an
already-populated `company_url` with a different newly found value, so
re-running the orchestrator over a fully-enriched record does alter
populated fields. -/
theorem merge_not_fill_empty_counterexample :
    rowFull.company_url = "https://www.old-site.co.uk"
    ∧ infoNew.company_url ≠ ""
    ∧ (mergeInfo rowFull infoNew).company_url = "https://www.new-site.co.uk"
    ∧ (mergeInfo rowFull infoNew).company_url ≠ rowFull.company_url
    ∧ process_csv (fun _ => some infoNew) (some [rowFull])
        = some [mergeInfo rowFull infoNew] := by
  decide

/-- C1, amended: the merge writes the stripped new value whenever it is
non-empty — regardless of the existing field — and preserves the
existing field exactly when the new value strips to empty; merging the
same enrichment result twice equals merging it once. -/
theorem merge_overwrite_semantics (r : Row) (i : Info) :
    ((mergeInfo r i).company_url
      = if stripS i.company_url ≠ "" then stripS i.company_url else r.company_url)
    ∧ ((mergeInfo r i).description
      = if stripS i.description ≠ "" then stripS i.description else r.description)
    ∧ ((mergeInfo r i).employees_2024
      = if stripS i.employees_2024 ≠ "" then stripS i.employees_2024 else r.employees_2024)
    ∧ ((mergeInfo r i).employees_2023
      = if stripS i.employees_2023 ≠ "" then stripS i.employees_2023 else r.employees_2023)
    ∧ ((mergeInfo r i).employees_2022
      = if stripS i.employees_2022 ≠ "" then stripS i.employees_2022 else r.employees_2022)
    ∧ ((mergeInfo r i).manufacturing_location
      = if stripS i.manufacturing_location ≠ "" then stripS i.manufacturing_location
        else r.manufacturing_location)
    ∧ mergeInfo (mergeInfo r i) i = mergeInfo r i := by
  refine ⟨rfl, rfl, rfl, rfl, rfl, rfl, ?_⟩
  simp only [mergeInfo, mergeField_idem]

/-! ## C4 — employee-count plausibility bounds -/

theorem scanMatches_inRange (lo hi : Nat) :
    ∀ (l : List String) (s : String), scanMatches lo hi l = some s →
      ∃ n : Nat, s = toString n ∧ lo ≤ n ∧ n ≤ hi := by
  intro l
  induction l with
  | nil => intro s h; simp [scanMatches] at h
  | cons m ms ih =>
    intro s h
    cases hm : pyInt? m with
    | none =>
      simp only [scanMatches, hm] at h
      exact ih s h
    | some n =>
      simp only [scanMatches, hm] at h
      split at h
      · next hcond =>
        have hc : lo ≤ n ∧ n ≤ hi := by simpa using hcond
        injection h with h2
        exact ⟨n, h2.symm, hc.1, hc.2⟩
      · exact ih s h

theorem firstInRange_inRange (lo hi : Nat) :
    ∀ (mss : List (List String)), firstInRange lo hi mss ≠ "" →
      ∃ n : Nat, firstInRange lo hi mss = toString n ∧ lo ≤ n ∧ n ≤ hi := by
  intro mss
  induction mss with
  | nil => intro h; simp [firstInRange] at h
  | cons ms rest ih =>
    intro h
    cases hs : scanMatches lo hi ms with
    | none =>
      simp only [firstInRange, hs] at h ⊢
      exact ih h
    | some s =>
      simp only [firstInRange, hs] at h ⊢
      exact scanMatches_inRange lo hi ms s hs

theorem scanMatches_skip12000 (lo hi : Nat) (ms : List String)
    (hb : ¬(lo ≤ 12000 ∧ 12000 ≤ hi)) :
    scanMatches lo hi ("12000" :: ms) = scanMatches lo hi ms := by
  have h12 : pyInt? "12000" = some 12000 := by decide
  simp only [scanMatches, h12]
  split
  · next hcond => exact absurd (by simpa using hcond) hb
  · rfl

/-- C4, counterexample: the v3 miner cited by the claim
(`get_employee_count_from_accounts`, bound `[1, 10000]`) emits `6000`,
which is outside the claimed `[1, 5000]` bound. -/
theorem employee_bound_v3_counterexample :
    v3_employee_extract [["12000", "6000"]] = "6000" ∧ ¬(6000 ≤ 5000) := by
  decide

/-- C4, amended: every count the quality-agent miner emits lies in
`[1, 5000]` and every count the v3 miner emits lies in `[1, 10000]`;
both discard a matched `12000` and keep scanning subsequent matches and
patterns. -/
theorem employee_extraction_bounds :
    (∀ mss : List (List String), pdf_employee_extract mss ≠ "" →
      ∃ n : Nat, pdf_employee_extract mss = toString n ∧ 1 ≤ n ∧ n ≤ 5000)
    ∧ (∀ mss : List (List String), v3_employee_extract mss ≠ "" →
      ∃ n : Nat, v3_employee_extract mss = toString n ∧ 1 ≤ n ∧ n ≤ 10000)
    ∧ (∀ ms : List String, scanMatches 1 5000 ("12000" :: ms) = scanMatches 1 5000 ms)
    ∧ (∀ ms : List String, scanMatches 1 10000 ("12000" :: ms) = scanMatches 1 10000 ms)
    ∧ (∀ mss : List (List String),
        firstInRange 1 5000 (["12000"] :: mss) = firstInRange 1 5000 mss) := by
  refine ⟨fun mss h => firstInRange_inRange 1 5000 mss h,
          fun mss h => firstInRange_inRange 1 10000 mss h,
          fun ms => scanMatches_skip12000 1 5000 ms (by decide),
          fun ms => scanMatches_skip12000 1 10000 ms (by decide),
          fun mss => ?_⟩
  have hnone : scanMatches 1 5000 ["12000"] = none :=
    (scanMatches_skip12000 1 5000 [] (by decide)).trans rfl
  simp only [firstInRange, hnone]

/-- C4, witness: on concrete match lists, the quality-agent miner skips
`12000` and returns the in-bound `150`. -/
theorem employee_extraction_bounds_witness :
    pdf_employee_extract [["12000", "150"]] ≠ ""
    ∧ (∃ n : Nat, pdf_employee_extract [["12000", "150"]] = toString n
        ∧ 1 ≤ n ∧ n ≤ 5000) := by
  refine ⟨by decide, employee_extraction_bounds.1 [["12000", "150"]] (by decide)⟩

/-! ## C6 — description redundancy validation -/

/-- C6 (confirmed): a description beginning with `"Company engaged in"`
is rejected exactly when its core shares more than 3 distinct
significant words with the concatenated classification text (the
source's `len(set(desc_core.split()) & set(sic_text.split()))`), and a
description with no such overlap — in particular any non-empty
description not beginning with that prefix — is accepted. -/
theorem description_redundancy_validator (d nm : String) (sic : List String) :
    (pyStartsWith d "Company engaged in" = true ∧ sicSimilarity d sic > 3 →
      validate_company_description d nm sic = ⟨false, "Too similar to SIC codes", 0⟩)
    ∧ (pyStartsWith d "Company engaged in" = true ∧ sicSimilarity d sic ≤ 3 →
      validate_company_description d nm sic = ⟨true, "", 70⟩)
    ∧ (d ≠ "" ∧ pyStartsWith d "Company engaged in" = false →
      validate_company_description d nm sic = ⟨true, "", 70⟩) := by
  have hne : pyStartsWith d "Company engaged in" = true → d ≠ "" := by
    intro h he
    subst he
    exact absurd h (by decide)
  refine ⟨?_, ?_, ?_⟩
  · rintro ⟨hp, hs⟩
    unfold validate_company_description
    rw [if_neg (hne hp), if_pos hp, if_pos hs]
  · rintro ⟨hp, hs⟩
    unfold validate_company_description
    rw [if_neg (hne hp), if_pos hp, if_neg (by omega)]
  · rintro ⟨hd, hp⟩
    unfold validate_company_description
    rw [if_neg hd, if_neg (by simp [hp])]

/-- C6, witness: a SIC-restating description (4 shared words) is
rejected, an organic paragraph is accepted. -/
theorem description_redundancy_validator_witness :
    validate_company_description
        "Company engaged in processing of fresh meat" "X"
        ["10.11 - processing of fresh meat"]
      = ⟨false, "Too similar to SIC codes", 0⟩
    ∧ validate_company_description
        "We build bespoke machines for breweries" "X"
        ["10.11 - processing of fresh meat"]
      = ⟨true, "", 70⟩ := by
  constructor
  · exact (description_redundancy_validator _ _ _).1 ⟨by decide, by decide⟩
  · exact (description_redundancy_validator _ _ _).2.2 ⟨by decide, by decide⟩

/-! ## C3 / C10 — URL validation -/

/-- C3, counterexample: `"ftp://acmemanufacturing.co.uk"` satisfies
every premise of the claim (host not denylisted, accepted suffix,
two matching name tokens for `"Acme Manufacturing Ltd"`), so the claim
requires acceptance — but the validator rejects it, because the source
first rejects any URL string not starting with `"http"`. -/
theorem validator_scheme_counterexample :
    blacklisted_domains.any (fun b =>
        containsL (toLowerL (netlocOf "ftp://acmemanufacturing.co.uk")) b.toList) = false
    ∧ endsWithL (toLowerL (netlocOf "ftp://acmemanufacturing.co.uk")) ".co.uk".toList = true
    ∧ companyWordsValidator "Acme Manufacturing Ltd" ≠ []
    ∧ domainMatches (toLowerL (netlocOf "ftp://acmemanufacturing.co.uk"))
        "Acme Manufacturing Ltd" = 2
    ∧ validate_company_website "ftp://acmemanufacturing.co.uk"
        "Acme Manufacturing Ltd" []
      = ⟨false, "Invalid URL format", 0⟩ := by
  decide

/-- C3 (amended: the claim additionally needs the URL string to start
with `"http"`, which the validator checks before everything else):
for such URLs with non-denylisted host and accepted suffix, if the
cleaned name has at least one token and none occurs in the host the
validator rejects with the no-name-match reason, otherwise it accepts
with confidence `min(100, 40 + 30·matches)`; in particular
`"https://www.acmemanufacturing.co.uk"` for `"Acme Manufacturing Ltd"`
is accepted with confidence ≥ 70. -/
theorem validator_name_correlation (url company_name : String)
    (hhttp : pyStartsWith url "http" = true)
    (hbl : blacklisted_domains.any
        (fun b => containsL (toLowerL (netlocOf url)) b.toList) = false)
    (hsuf : (endsWithL (toLowerL (netlocOf url)) ".co.uk".toList
        || endsWithL (toLowerL (netlocOf url)) ".com".toList
        || endsWithL (toLowerL (netlocOf url)) ".org".toList) = true) :
    (companyWordsValidator company_name ≠ []
        ∧ domainMatches (toLowerL (netlocOf url)) company_name = 0 →
      validate_company_website url company_name []
        = ⟨false, "No company name match in domain", 0⟩)
    ∧ (companyWordsValidator company_name = []
        ∨ domainMatches (toLowerL (netlocOf url)) company_name ≠ 0 →
      validate_company_website url company_name []
        = ⟨true, "",
            min 100 (40 + 30 * domainMatches (toLowerL (netlocOf url)) company_name)⟩)
    ∧ ((validate_company_website "https://www.acmemanufacturing.co.uk"
          "Acme Manufacturing Ltd" []).valid = true
        ∧ (validate_company_website "https://www.acmemanufacturing.co.uk"
          "Acme Manufacturing Ltd" []).confidence ≥ 70) := by
  have hne : url ≠ "" := by
    intro he
    subst he
    exact absurd hhttp (by decide)
  refine ⟨?_, ?_, by decide⟩
  · rintro ⟨hw, hm⟩
    simp only [validate_company_website, hne, hhttp, hbl, hsuf, domainMatches] at hm ⊢
    simp [hm, List.isEmpty_iff, hw]
  · intro hm
    rcases hm with htok | hm
    · simp only [validate_company_website, hne, hhttp, hbl, hsuf, domainMatches, htok]
      simp
    · simp only [validate_company_website, hne, hhttp, hbl, hsuf, domainMatches] at hm ⊢
      simp only [hm, if_neg, Bool.false_and, Bool.and_eq_true, decide_eq_true_eq]
      simp [hm, Nat.mul_comm, Nat.add_comm]

/-- C3, witness: the Acme example satisfies the hypotheses and lands in
the accept branch with confidence 100 ≥ 70. -/
theorem validator_name_correlation_witness :
    validate_company_website "https://www.acmemanufacturing.co.uk"
        "Acme Manufacturing Ltd" []
      = ⟨true, "",
          min 100 (40 + 30 * domainMatches
            (toLowerL (netlocOf "https://www.acmemanufacturing.co.uk"))
            "Acme Manufacturing Ltd")⟩ := by
  exact (validator_name_correlation "https://www.acmemanufacturing.co.uk"
    "Acme Manufacturing Ltd" (by decide) (by decide) (by decide)).2.1 (Or.inr (by decide))

/-- C10 (confirmed): when the cleaned entity name yields no token of
length > 2, the validator accepts any http(s) URL with non-denylisted
host and accepted suffix at confidence 40 — the name-correlation check
is waived. -/
theorem validator_waives_name_check (url company_name : String)
    (hscheme : pyStartsWith url "https://" = true ∨ pyStartsWith url "http://" = true)
    (hbl : blacklisted_domains.any
        (fun b => containsL (toLowerL (netlocOf url)) b.toList) = false)
    (hsuf : (endsWithL (toLowerL (netlocOf url)) ".co.uk".toList
        || endsWithL (toLowerL (netlocOf url)) ".com".toList
        || endsWithL (toLowerL (netlocOf url)) ".org".toList) = true)
    (htok : companyWordsValidator company_name = []) :
    validate_company_website url company_name [] = ⟨true, "", 40⟩ := by
  have e1 : "https://".toList = "http".toList ++ "s://".toList := by decide
  have e2 : "http://".toList = "http".toList ++ "://".toList := by decide
  have hhttp : pyStartsWith url "http" = true := by
    unfold pyStartsWith at hscheme ⊢
    rcases hscheme with h | h
    · rw [e1] at h
      exact startsWithL_append_left _ _ _ h
    · rw [e2] at h
      exact startsWithL_append_left _ _ _ h
  have hne : url ≠ "" := by
    intro he
    subst he
    exact absurd hhttp (by decide)
  simp only [validate_company_website, hne, hhttp, hbl, hsuf, htok]
  simp

/-- C10, witness: `"https://www.xy.co.uk"` for `"AB Ltd"` (whose
cleaning leaves no token longer than 2 characters) is accepted with
confidence 40. -/
theorem validator_waives_name_check_witness :
    validate_company_website "https://www.xy.co.uk" "AB Ltd" [] = ⟨true, "", 40⟩ := by
  exact validator_waives_name_check "https://www.xy.co.uk" "AB Ltd"
    (Or.inl (by decide)) (by decide) (by decide) (by decide)

/-! ## Batch-loop lemmas (shared by the checkpointing and
error-containment claims) -/

theorem batchLoop_fst (k : Nat) (e : Row → Option Info) :
    ∀ (rest done : List Row) (p : Nat) (saves : List (List Row)),
      (batchLoop k e done rest p saves).1 = done ++ rest.map (stepRow e) := by
  intro rest
  induction rest with
  | nil => intro done p saves; simp [batchLoop]
  | cons r rest ih =>
    intro done p saves
    cases he : e r with
    | none =>
      simp only [batchLoop, he]
      rw [ih]
      simp [stepRow, he]
    | some info =>
      simp only [batchLoop, he]
      rw [ih]
      simp [stepRow, he]

theorem batchLoop_saves (k : Nat) (e : Row → Option Info) :
    ∀ (rest done : List Row) (p : Nat) (saves : List (List Row)),
      (∀ r ∈ rest, (e r).isSome) →
      (batchLoop k e done rest p saves).2 = saves ++ chkSnaps k e done p rest := by
  intro rest
  induction rest with
  | nil => intro done p saves _; simp [batchLoop, chkSnaps]
  | cons r rest ih =>
    intro done p saves hall
    have hr : (e r).isSome := hall r (by simp)
    cases he : e r with
    | none => rw [he] at hr; simp at hr
    | some info =>
      have hrest : ∀ x ∈ rest, (e x).isSome := fun x hx => hall x (by simp [hx])
      simp only [batchLoop, he]
      rw [ih (done ++ [mergeInfo r info]) (p + 1) _ hrest]
      simp only [chkSnaps, stepRow, he]
      by_cases hmod : (p + 1) % k = 0
      · simp [hmod, List.append_assoc]
      · simp [hmod]

/-! ## C8 — per-record error containment -/

/-- C8 (confirmed): the batch is a total function of the per-record
enrichment outcomes — a record whose enrichment raises (modelled as
`none`) is left unchanged while the batch continues over all other
records and still returns the full table; the only `None` outcome of
`process_csv` is an unreadable input table. -/
theorem per_record_error_containment (e : Row → Option Info) (input : Option (List Row)) :
    (process_csv e input = none ↔ input = none)
    ∧ (∀ tbl, input = some tbl →
        process_csv e input = some (tbl.map (stepRow e)))
    ∧ (∀ tbl i r, input = some tbl → tbl.get? i = some r → e r = none →
        ∃ out, process_csv e input = some out
          ∧ out.get? i = some r ∧ out.length = tbl.length) := by
  have hmain : ∀ tbl : List Row, process_csv e (some tbl) = some (tbl.map (stepRow e)) := by
    intro tbl
    simp only [process_csv, process_batch]
    rw [batchLoop_fst]
    simp
  refine ⟨?_, ?_, ?_⟩
  · cases input with
    | none => simp [process_csv]
    | some tbl => simp [hmain tbl]
  · intro tbl h
    subst h
    exact hmain tbl
  · intro tbl i r h hget he
    subst h
    refine ⟨tbl.map (stepRow e), hmain tbl, ?_, by simp⟩
    rw [List.get?_map, hget]
    simp [stepRow, he]

/-- C8, witness: a batch of two records where the first one's
enrichment raises still returns the full two-row table with the failed
record untouched. -/
theorem per_record_error_containment_witness :
    ∃ out, process_csv (fun r => if r.name = "BAD" then none else some infoNew)
        (some [rowBlank "BAD", rowBlank "Good"]) = some out
      ∧ out.get? 0 = some (rowBlank "BAD") ∧ out.length = 2 := by
  exact (per_record_error_containment _ _).2.2 [rowBlank "BAD", rowBlank "Good"]
    0 (rowBlank "BAD") rfl (by decide) (by decide)

/-! ## C7 — checkpoint snapshots -/

theorem get?_append_of_some {α : Type} {l1 l2 : List α} :
    ∀ {n : Nat} {x : α}, l1.get? n = some x → (l1 ++ l2).get? n = some x := by
  induction l1 with
  | nil => intro n x h; simp [List.get?] at h
  | cons a l ih =>
    intro n x h
    cases n with
    | zero => simpa using h
    | succ m =>
      simp only [List.get?] at h ⊢
      exact ih h

/-- Advancing the checkpoint scan by `c` records when the success
counter is `c` short of the next multiple of `k`: exactly one snapshot
is taken, after the `c`-th record. -/
theorem chkSnaps_advance (k : Nat) (e : Row → Option Info) (hk : 0 < k) :
    ∀ (c : Nat) (rest done : List Row) (p : Nat),
      0 < c → c ≤ k → p % k = k - c → c ≤ rest.length →
      chkSnaps k e done p rest
        = (done ++ (rest.take c).map (stepRow e) ++ rest.drop c)
            :: chkSnaps k e (done ++ (rest.take c).map (stepRow e)) (p + c) (rest.drop c) := by
  intro c
  induction c with
  | zero => intro rest done p h0; omega
  | succ c ih =>
    intro rest done p _ hck hp hlen
    cases rest with
    | nil => simp at hlen
    | cons r rest =>
      have hdm := Nat.div_add_mod p k
      cases c with
      | zero =>
        have hp1 : p + 1 = k * (p / k + 1) := by
          rw [Nat.mul_succ]
          omega
        have hm0 : (p + 1) % k = 0 := by
          rw [hp1]
          exact Nat.mul_mod_right k _
        simp only [chkSnaps]
        rw [if_pos hm0]
        simp
      | succ c =>
        have hq : p + 1 = k * (p / k) + (k - (c + 1)) := by omega
        have hm1 : (p + 1) % k = k - (c + 1) := by
          rw [hq, Nat.mul_add_mod, Nat.mod_eq_of_lt (by omega)]
        have hne0 : ¬((p + 1) % k = 0) := by
          rw [hm1]
          omega
        simp only [chkSnaps]
        rw [if_neg hne0]
        rw [ih rest (done ++ [stepRow e r]) (p + 1) (by omega) (by omega)
          (by rw [hm1]) (by simp at hlen ⊢; omega)]
        have harr : p + 1 + (c + 1) = p + (c + 1 + 1) := by omega
        simp only [List.take_succ_cons, List.drop_succ_cons, List.map_cons,
          List.nil_append, harr]
        simp [List.append_assoc]

/-- Position `i` of the checkpoint list, starting from a success
counter that is a multiple of `k`: the snapshot taken after the
`(i+1)·k`-th record, i.e. the table with exactly that prefix enriched
and the rest untouched. -/
theorem chkSnaps_get (k : Nat) (e : Row → Option Info) (hk : 0 < k) :
    ∀ (i : Nat) (rest done : List Row) (p : Nat),
      p % k = 0 → (i + 1) * k ≤ rest.length →
      (chkSnaps k e done p rest).get? i
        = some (done ++ (rest.take ((i + 1) * k)).map (stepRow e)
            ++ rest.drop ((i + 1) * k)) := by
  intro i
  induction i with
  | zero =>
    intro rest done p hp hlen
    rw [chkSnaps_advance k e hk k rest done p hk (le_refl k) (by omega)
      (by simpa using hlen)]
    simp
  | succ i ih =>
    intro rest done p hp hlen
    have hkle : k ≤ rest.length := by
      have h1 : k ≤ (i + 1 + 1) * k := Nat.le_mul_of_pos_left k (by omega)
      omega
    rw [chkSnaps_advance k e hk k rest done p hk (le_refl k) (by omega) hkle]
    simp only [List.get?]
    have hmul : (i + 1 + 1) * k = (i + 1) * k + k := by ring
    rw [ih (rest.drop k) (done ++ (rest.take k).map (stepRow e)) (p + k)
      (by rw [Nat.add_mod_right]; exact hp)
      (by simp only [List.length_drop]; omega)]
    have htake : rest.take ((i + 1 + 1) * k)
        = rest.take k ++ (rest.drop k).take ((i + 1) * k) := by
      rw [show (i + 1 + 1) * k = k + (i + 1) * k from by ring, List.take_add]
    have hdrop : (rest.drop k).drop ((i + 1) * k) = rest.drop ((i + 1 + 1) * k) := by
      rw [List.drop_drop, show k + (i + 1) * k = (i + 1 + 1) * k from by ring]
    rw [htake, hdrop, List.map_append]
    simp [List.append_assoc]

/-- C7 (confirmed, with the source's checkpoint interval as the loop
parameter `k`, fixed to 3 in `process_csv`): over a batch whose records
all enrich without exception, the `i`-th persisted snapshot (index
`i-1`, taken right after record index `i·k − 1`) is exactly the table
with the first `i·k` records enriched and all later records untouched,
and the last persisted table is the completed batch. -/
theorem checkpoint_snapshots (k : Nat) (e : Row → Option Info) (tbl : List Row) (i : Nat)
    (hk : 0 < k) (hi : 0 < i) (hle : i * k ≤ tbl.length)
    (hall : ∀ r ∈ tbl, (e r).isSome) :
    (process_batch k e tbl).2.get? (i - 1)
      = some ((tbl.take (i * k)).map (stepRow e) ++ tbl.drop (i * k))
    ∧ (process_batch k e tbl).2.getLast? = some (process_batch k e tbl).1 := by
  constructor
  · simp only [process_batch]
    rw [batchLoop_saves k e tbl [] 0 [] hall]
    simp only [List.nil_append]
    have hii : i - 1 + 1 = i := by omega
    have hg := chkSnaps_get k e hk (i - 1) tbl [] 0 (by simp) (by rw [hii]; exact hle)
    rw [hii] at hg
    exact get?_append_of_some (by simpa using hg)
  · simp only [process_batch]
    exact List.getLast?_concat _

/-- C7, witness: six blank records, checkpoint interval 3, second
snapshot (`i = 2`): the persisted table is the fully enriched batch of
six, i.e. the first `2·3` records enriched and nothing after them. -/
theorem checkpoint_snapshots_witness :
    (process_batch 3 (fun _ => some infoNew)
        [rowBlank "a", rowBlank "b", rowBlank "c",
         rowBlank "d", rowBlank "e", rowBlank "f"]).2.get? 1
      = some ((([rowBlank "a", rowBlank "b", rowBlank "c",
          rowBlank "d", rowBlank "e", rowBlank "f"].take (2 * 3)).map
            (stepRow (fun _ => some infoNew)))
          ++ [rowBlank "a", rowBlank "b", rowBlank "c",
              rowBlank "d", rowBlank "e", rowBlank "f"].drop (2 * 3)) := by
  exact (checkpoint_snapshots 3 (fun _ => some infoNew)
    [rowBlank "a", rowBlank "b", rowBlank "c",
     rowBlank "d", rowBlank "e", rowBlank "f"] 2
    (by decide) (by decide) (by decide) (by decide)).1

/-! ## C9 — a randomized delay precedes every outbound request -/

theorem wdFrom_mono : ∀ (t : List Ev), wdFrom false t = true → ∀ b, wdFrom b t = true := by
  intro t h b
  cases t with
  | nil => rfl
  | cons ev rest =>
    cases ev with
    | delay => simpa [wdFrom] using h
    | req u => simp [wdFrom] at h

theorem wdFrom_append : ∀ (t1 : List Ev) (b : Bool) (t2 : List Ev),
    wdFrom b t1 = true → wdFrom false t2 = true → wdFrom b (t1 ++ t2) = true := by
  intro t1
  induction t1 with
  | nil => intro b t2 _ h2; exact wdFrom_mono t2 h2 b
  | cons ev rest ih =>
    intro b t2 h1 h2
    cases ev with
    | delay =>
      simp only [List.cons_append, wdFrom] at h1 ⊢
      exact ih true t2 h1 h2
    | req u =>
      simp only [List.cons_append, wdFrom, Bool.and_eq_true] at h1 ⊢
      exact ⟨h1.1, ih false t2 h1.2 h2⟩

/-- Prepending one delayed request keeps a trace well delayed. -/
theorem wd_pair_append (u : String) (t : List Ev) (b : Bool)
    (h : wdFrom false t = true) : wdFrom b (Ev.delay :: Ev.req u :: t) = true := by
  simp only [wdFrom, Bool.true_and]
  exact h

theorem wd_verify (net : Net) (url nm : String) :
    wellDelayed (verify_business_website net url nm).2 = true := by
  simp only [verify_business_website, wellDelayed]
  split <;> rfl

theorem wd_testDomainList (net : Net) (nm : String) :
    ∀ ds : List String, wellDelayed (testDomainList net nm ds).2 = true := by
  intro ds
  induction ds with
  | nil => rfl
  | cons d ds ih =>
    simp only [testDomainList, wellDelayed]
    split
    · split
      · exact wd_pair_append _ _ _ (wd_verify net _ nm)
      · exact wd_pair_append _ _ _
          (wdFrom_append _ false _ (wd_verify net _ nm) ih)
    · exact wd_pair_append _ _ _ ih

theorem wd_construct_and_test (net : Net) (nm : String) :
    wellDelayed (construct_and_test_domains net nm).2 = true :=
  wd_testDomainList net nm (domains_tried nm)

theorem wd_scanFilingMatches (net : Net) (num : String) :
    ∀ ms : List String, wellDelayed (scanFilingMatches net num ms).2 = true := by
  intro ms
  induction ms with
  | nil => rfl
  | cons m ms ih =>
    simp only [scanFilingMatches, wellDelayed]
    split
    · exact wd_verify net _ num
    · exact wdFrom_append _ false _ (wd_verify net _ num) ih

theorem wd_extract_website_ch (net : Net) (num : String) :
    wellDelayed (extract_website_from_companies_house net num).2 = true := by
  simp only [extract_website_from_companies_house, wellDelayed]
  split
  · rfl
  · exact wd_pair_append _ _ _ (wd_scanFilingMatches net num _)

theorem wd_scanSearchLinks (net : Net) (nm : String) :
    ∀ us : List String, wellDelayed (scanSearchLinks net nm us).2 = true := by
  intro us
  induction us with
  | nil => rfl
  | cons u us ih =>
    simp only [scanSearchLinks, wellDelayed]
    split
    · split
      · exact wd_verify net u nm
      · exact wdFrom_append _ false _ (wd_verify net u nm) ih
    · exact ih

theorem wd_search_filter (net : Net) (nm : String) :
    wellDelayed (search_with_quality_filter net nm).2 = true := by
  simp only [search_with_quality_filter, wellDelayed]
  split
  · exact wd_pair_append _ _ _ (wd_scanSearchLinks net nm _)
  · rfl

theorem wd_find_official_website (net : Net) (nm num : String) :
    wellDelayed (find_official_website net nm num).2 = true := by
  simp only [find_official_website, wellDelayed]
  split
  · exact wd_construct_and_test net nm
  · split
    · split
      · exact wdFrom_append _ false _ (wd_construct_and_test net nm)
          (wd_extract_website_ch net num)
      · exact wdFrom_append _ false _
          (wdFrom_append _ false _ (wd_construct_and_test net nm)
            (wd_extract_website_ch net num))
          (wd_search_filter net nm)
    · exact wdFrom_append _ false _ (wd_construct_and_test net nm)
        (wd_search_filter net nm)

theorem wd_extract_description (net : Net) (url nm : String) :
    wellDelayed (extract_company_description net url nm).2 = true := by
  simp only [extract_company_description, wellDelayed]
  split
  · rfl
  · split <;> rfl

theorem wd_extract_pdf (net : Net) (link : String) :
    wellDelayed (extract_employees_from_pdf net link).2 = true := by
  simp only [extract_employees_from_pdf, wellDelayed]
  split <;> split <;> rfl

theorem wd_accountsLoop (net : Net) :
    ∀ (links : List (String × String × String)) (d : EmpData),
      wellDelayed (accountsLoop net links d).2 = true := by
  intro links
  induction links with
  | nil => intro d; rfl
  | cons l links ih =>
    intro d
    obtain ⟨year, link, desc⟩ := l
    simp only [accountsLoop, wellDelayed]
    split
    · exact wdFrom_append _ false _ (wd_extract_pdf net link) (ih _)
    · exact ih d

theorem wd_employee_data (net : Net) (num : String) :
    wellDelayed (get_employee_data_from_accounts net num).2 = true := by
  simp only [get_employee_data_from_accounts, wellDelayed]
  split
  · rfl
  · exact wd_pair_append _ _ _ (wd_accountsLoop net _ _)

theorem wd_address (net : Net) (num : String) :
    wellDelayed (get_companies_house_address net num).2 = true := by
  simp only [get_companies_house_address, wellDelayed]
  split <;> rfl

theorem wd_gated_description (net : Net) (website nm : String) (sic : List String) :
    wellDelayed (gated_description net website nm sic).2 = true := by
  simp only [gated_description, wellDelayed]
  split
  · split
    · split
      · exact wd_extract_description net _ _
      · exact wd_extract_description net _ _
    · exact wd_extract_description net _ _
  · rfl

/-- C9 (confirmed): over any network environment and any record, every
outbound request the per-record orchestration issues — HEAD domain
probes, content-confirmation GETs, registry page and document fetches,
and search-engine fetches — is immediately preceded by a
`random_delay()` event (the source's uniform draw from the configured
delay interval), on every code path. -/
theorem wd_enrich_rest (net : Net) (nm num : String) (sic : List String) :
    wellDelayed (enrich_rest net nm num sic).2 = true := by
  simp only [enrich_rest, wellDelayed]
  split
  · exact wdFrom_append _ false _
      (wdFrom_append _ false _
        (wdFrom_append _ false _ (wd_find_official_website net nm num)
          (wd_gated_description net (find_official_website net nm num).1 nm sic))
        (wd_employee_data net num))
      (wd_address net num)
  · exact wdFrom_append _ false _ (wd_find_official_website net nm num)
      (wd_gated_description net (find_official_website net nm num).1 nm sic)

/-- C9 (confirmed): over any network environment and any record, every
outbound request the per-record orchestration issues — HEAD domain
probes, content-confirmation GETs, registry page and document fetches,
and search-engine fetches — is immediately preceded by a
`random_delay()` event (the source's uniform draw from the configured
delay interval), on every code path. -/
theorem delay_before_every_request (net : Net) (row : Row) :
    wellDelayed (enrich_company net row).2 = true := by
  simp only [enrich_company, wellDelayed]
  split
  · split
    · rfl
    · split
      · exact wd_address net (stripS row.number)
      · rfl
  · exact wd_enrich_rest net (stripS row.name)
      (if stripS row.number = "nan" then "" else stripS row.number) row.sic

/-- C2 (confirmed): `find_official_website` consults domain guessing
first (returning its result and issuing no further requests when it
yields a validated URL), consults registry-filing mining only when a
company number is present, then text search; the first validated hit
wins (the trace equalities show no later strategy's requests occur),
and the result is the text search's result — in particular `""` — when
the earlier strategies exhaust. -/
theorem website_resolution_cascade_order (net : Net) (company_name company_number : String) :
    ((construct_and_test_domains net company_name).1 ≠ ""
        ∧ (validate_company_website (construct_and_test_domains net company_name).1
            company_name []).valid = true →
      find_official_website net company_name company_number
        = construct_and_test_domains net company_name)
    ∧ (¬((construct_and_test_domains net company_name).1 ≠ ""
          ∧ (validate_company_website (construct_and_test_domains net company_name).1
              company_name []).valid = true) →
       company_number ≠ "" →
       ((extract_website_from_companies_house net company_number).1 ≠ ""
          ∧ (validate_company_website
              (extract_website_from_companies_house net company_number).1
              company_name []).valid = true) →
      find_official_website net company_name company_number
        = ((extract_website_from_companies_house net company_number).1,
           (construct_and_test_domains net company_name).2
             ++ (extract_website_from_companies_house net company_number).2))
    ∧ (¬((construct_and_test_domains net company_name).1 ≠ ""
          ∧ (validate_company_website (construct_and_test_domains net company_name).1
              company_name []).valid = true) →
       company_number ≠ "" →
       ¬((extract_website_from_companies_house net company_number).1 ≠ ""
          ∧ (validate_company_website
              (extract_website_from_companies_house net company_number).1
              company_name []).valid = true) →
      find_official_website net company_name company_number
        = ((search_with_quality_filter net company_name).1,
           (construct_and_test_domains net company_name).2
             ++ (extract_website_from_companies_house net company_number).2
             ++ (search_with_quality_filter net company_name).2))
    ∧ (¬((construct_and_test_domains net company_name).1 ≠ ""
          ∧ (validate_company_website (construct_and_test_domains net company_name).1
              company_name []).valid = true) →
       company_number = "" →
      find_official_website net company_name company_number
        = ((search_with_quality_filter net company_name).1,
           (construct_and_test_domains net company_name).2
             ++ (search_with_quality_filter net company_name).2)) := by
  refine ⟨?_, ?_, ?_, ?_⟩
  · intro h
    simp only [find_official_website]
    rw [if_pos (by simp [h.1, h.2])]
  · intro h1 hn h2
    simp only [find_official_website]
    rw [if_neg (by simp only [Bool.and_eq_true, decide_eq_true_eq]; exact h1),
        if_pos hn, if_pos (by simp [h2.1, h2.2])]
  · intro h1 hn h2
    simp only [find_official_website]
    rw [if_neg (by simp only [Bool.and_eq_true, decide_eq_true_eq]; exact h1),
        if_pos hn, if_neg (by simp only [Bool.and_eq_true, decide_eq_true_eq]; exact h2)]
  · intro h1 hn
    simp only [find_official_website]
    rw [if_neg (by simp only [Bool.and_eq_true, decide_eq_true_eq]; exact h1),
        if_neg (by simp [hn])]

/-- C2, witness: in `netHit` the first strategy resolves (a trace of
exactly one HEAD probe and one confirmation GET, no registry/search
requests); in `netMiss` with a company number all three strategies
exhaust and the resolver returns `""`. -/
theorem website_resolution_cascade_order_witness :
    find_official_website netHit "Acme Manufacturing Ltd" ""
      = ("https://www.acmemanufacturing.co.uk",
         [Ev.delay, Ev.req "https://www.acmemanufacturing.co.uk",
          Ev.delay, Ev.req "https://www.acmemanufacturing.co.uk"])
    ∧ (find_official_website netMiss "Acme Manufacturing Ltd" "12345678").1 = "" := by
  constructor
  · exact ((website_resolution_cascade_order netHit "Acme Manufacturing Ltd" "").1
      ⟨by decide, by decide⟩).trans (by decide)
  · have h := (website_resolution_cascade_order netMiss
      "Acme Manufacturing Ltd" "12345678").2.2.1 (by decide) (by decide) (by decide)
    rw [h]
    decide

/-! ## C5 — domain-candidate generation order -/

/-- C5, counterexample: for `"Bright Widgets Limited"` (two cleaned
tokens) the source's fourth probed candidate repeats
`brightwidgets.co.uk`, whereas the claimed order would probe the
single-token `bright.co.uk` fourth. -/
theorem domain_candidates_order_counterexample :
    domains_tried "Bright Widgets Limited"
      = ["brightwidgets.co.uk", "bright-widgets.co.uk", "brightwidgets.com",
         "brightwidgets.co.uk"]
    ∧ spec_domains_tried "Bright Widgets Limited"
      = ["brightwidgets.co.uk", "bright-widgets.co.uk", "brightwidgets.com",
         "bright.co.uk"]
    ∧ domains_tried "Bright Widgets Limited"
        ≠ spec_domains_tried "Bright Widgets Limited" := by
  decide

/-- C5, amended: the probed candidates are, in order — two-token
concatenation `.co.uk`, hyphenated `.co.uk`, concatenation `.com`, then
the three-token concatenation `.co.uk` when a third token exists and a
*repeat* of the two-token `.co.uk` concatenation otherwise; with a
single token, the single-token `.co.uk`/`.com` pair; at most 4
candidates are probed (so with ≥ 2 tokens the single-token candidates
are generated but never probed); the first candidate for
`"Bright Widgets Limited"` is `brightwidgets.co.uk`. -/
theorem domain_candidates_amended (name : String) :
    domains_tried name = amended_domains_tried (companyWordsDomain name)
    ∧ (domains_tried name).length ≤ 4
    ∧ (domain_candidates "Bright Widgets Limited").head? = some "brightwidgets.co.uk" := by
  refine ⟨?_, ?_, by decide⟩
  · unfold domains_tried domain_candidates amended_domains_tried
    cases h : companyWordsDomain name with
    | nil => rfl
    | cons w0 rest =>
      cases rest with
      | nil => rfl
      | cons w1 rest2 =>
        cases rest2 with
        | nil => simp [List.take]
        | cons w2 rest3 => simp [List.take]
  · unfold domains_tried
    simp [List.length_take]
